import Mathlib

set_option autoImplicit false

/-!
# Verification of the `DocumentSplitter` chunking engine

Shallow embedding of `haystack/nodes/preprocessor/splitter.py` (the
`DocumentSplitter` node) and of the helper routines it calls.  Text is
modelled as `List Char` (Python `str`), documents as a structure with
content, content type, metadata and id hash keys, and the `split`
pipeline as a pure function returning `Except` (a raised `ValueError`
becomes `Except.error`).

The helper modules `split_helpers.py` and `merge_helpers.py` are not part
of the sources; the definitions for `split_by_separators`,
`validate_unit_boundaries` and `make_merge_groups` are therefore modelled
from the specification (their doc comments say so and name the missing
file).  Everything else is translated directly from `splitter.py`.
-/

/-- Python `str`, as a list of characters. -/
abbrev Str := List Char

/-! ## Segmentation: `split_by_separators` (modelled from the spec) -/

/-- Matches `sep` against the front of `cs`; on success returns the rest of
`cs` after the separator. -/
def stripMatch : Str → Str → Option Str
  | [], cs => some cs
  | _ :: _, [] => none
  | a :: as, b :: bs => if a = b then stripMatch as bs else none

/-- Tries each separator in order at the current position; first match wins.
Only non-empty separators can match.  Returns the matched separator together
with the remaining text. -/
def findSep : List Str → Str → Option (Str × Str)
  | [], _ => none
  | s :: rest, cs =>
    if s = [] then findSep rest cs
    else
      match stripMatch s cs with
      | some r => some (s, r)
      | none => findSep rest cs

/-- Worker for `split_by_separators`: walks the text one position at a time,
accumulating the current unit in `acc`; when a separator matches, the unit is
closed with the separator attached as its trailing part.  `fuel` bounds the
recursion (one unit of fuel per consumed character; callers pass the text
length, which always suffices because every step consumes at least one
character). -/
def sepSplitGo (seps : List Str) : Nat → Str → Str → List Str
  | 0, acc, cs => if acc ++ cs = [] then [] else [acc ++ cs]
  | fuel + 1, acc, cs =>
    match findSep seps cs with
    | some (s, r) => (acc ++ s) :: sepSplitGo seps fuel [] r
    | none =>
      match cs with
      | [] => if acc = [] then [] else [acc]
      | ch :: rest => sepSplitGo seps fuel (acc ++ [ch]) rest

/-- Modelled from the spec: `split_by_separators` from
`haystack/nodes/preprocessor/split_helpers.py` (not under the sources).
Splits on any of a user-provided ordered list of literal separator strings,
first-match-wins when separators overlap at a position, retaining the
separator as a trailing part of each preceding unit so that concatenating
the units reproduces the original text exactly. -/
def split_by_separators (text : Str) (separators : List Str) : List Str :=
  sepSplitGo separators text.length [] text

/-- The `split_by="word"` splitter function from `get_splitter`
(`splitter.py` line 673): `split_by_separators` with separators
space, newline and form feed. -/
def word_splitter (text : Str) : List Str :=
  split_by_separators text [[' '], ['\n'], ['\x0C']]

/-! ## Boundary validation: `validate_unit_boundaries` (modelled from the spec) -/

/-- A validated unit: its text, its token count (the token-count oracle's
answer, carried alongside the text as in the tuples of `valid_contents`),
and whether it was flagged for exceeding `max_tokens`. -/
structure VUnit where
  text : Str
  tokens : Nat
  flagged : Bool
deriving DecidableEq

/-- Worker for `forceSlices`: cuts consecutive slices of exactly `m`
characters off the front (the last slice may be shorter).  `fuel` bounds the
recursion; callers pass the text length, which suffices whenever `m > 0`. -/
def forceSlicesGo (m : Nat) : Nat → Str → List Str
  | 0, cs => if cs = [] then [] else [cs]
  | fuel + 1, cs =>
    if cs = [] then [] else cs.take m :: forceSlicesGo m fuel (cs.drop m)

/-- Force-splits an oversized unit into consecutive slices of exactly `m`
characters; the last slice may be shorter. -/
def forceSlices (m : Nat) (cs : Str) : List Str :=
  forceSlicesGo m cs.length cs

/-- Validation of a single unit: if `max_chars > 0` and the unit is longer,
it is force-split (even mid-word) into slices of exactly `max_chars`
characters; otherwise it passes through unchanged, flagged when
`max_tokens > 0` and its token count exceeds `max_tokens` (token overflow is
never subdivided, only flagged). -/
def validateOne (max_chars max_tokens : Nat) (tc : Str → Nat) (u : Str) : List VUnit :=
  if 0 < max_chars ∧ max_chars < u.length then
    (forceSlices max_chars u).map
      (fun s => ⟨s, tc s, decide (0 < max_tokens ∧ max_tokens < tc s)⟩)
  else
    [⟨u, tc u, decide (0 < max_tokens ∧ max_tokens < tc u)⟩]

/-- Modelled from the spec: `validate_unit_boundaries` from
`haystack/nodes/preprocessor/merge_helpers.py` (not under the sources).
Enforces the per-unit hard caps: character overflow is force-split, token
overflow is passed through unchanged and only flagged.  The token counts
(Python argument `tokens`) are modelled by the per-unit oracle `tc`. -/
def validate_unit_boundaries (contents : List Str) (max_chars max_tokens : Nat)
    (tc : Str → Nat) : List VUnit :=
  contents.flatMap (validateOne max_chars max_tokens tc)

/-! ## Window assembly: `make_merge_groups` (modelled from the spec) -/

/-- Sum of the text lengths of the units with indices in `[s, e)`. -/
def sumLen (c : List VUnit) (s e : Nat) : Nat :=
  (((c.drop s).take (e - s)).map (fun u => u.text.length)).sum

/-- Sum of the token counts of the units with indices in `[s, e)`. -/
def sumTok (c : List VUnit) (s e : Nat) : Nat :=
  (((c.drop s).take (e - s)).map (fun u => u.tokens)).sum

/-- Whether the unit at index `e` may be added to the open window `[s, e)`:
all active caps must stay satisfied (unit count below `window_size` when
`window_size > 0`, cumulative characters within `max_chars` when
`max_chars > 0`, cumulative tokens within `max_tokens` when
`max_tokens > 0`). -/
def canAdd (c : List VUnit) (ws mc mt : Nat) (s e : Nat) : Bool :=
  decide ((ws = 0 ∨ e - s < ws) ∧ (mc = 0 ∨ sumLen c s (e + 1) ≤ mc) ∧
    (mt = 0 ∨ sumTok c s (e + 1) ≤ mt))

/-- Extends the window end `e` while the next unit exists and all caps allow
it.  `fuel` bounds the recursion; callers pass the unit-list length, which
always suffices. -/
def growExtend (c : List VUnit) (ws mc mt : Nat) (s : Nat) : Nat → Nat → Nat
  | 0, e => e
  | fuel + 1, e =>
    if e < c.length ∧ canAdd c ws mc mt s e then growExtend c ws mc mt s fuel (e + 1)
    else e

/-- The end of the window opened at `s`: at least one unit is always taken
(even if that single unit violates a cumulative cap), then the window grows
while the caps allow. -/
def growWindow (c : List VUnit) (ws mc mt : Nat) (s : Nat) : Nat :=
  growExtend c ws mc mt s c.length (s + 1)

/-- Worker for `make_merge_groups`: records the window `[s, e)`, then moves
the start forward by `max(window_size - window_overlap, 1)` when
`window_size > 0`, and to `e` otherwise.  `fuel` bounds the recursion;
callers pass the unit-list length, which always suffices because the start
strictly increases. -/
def mergeGo (c : List VUnit) (ws wo mc mt : Nat) : Nat → Nat → List (Nat × Nat)
  | 0, _ => []
  | fuel + 1, s =>
    if s < c.length then
      let e := growWindow c ws mc mt s
      (s, e) :: mergeGo c ws wo mc mt fuel (if 0 < ws then s + max (ws - wo) 1 else e)
    else []

/-- Modelled from the spec: `make_merge_groups` from
`haystack/nodes/preprocessor/merge_helpers.py` (not under the sources).
Sliding-window assembly of validated units into windows `[s, e)` of unit
indices under the combined unit-count / char / token budgets, with stride
`max(window_size - window_overlap, 1)` when `window_size > 0` and stride to
the window end when `window_size = 0`. -/
def make_merge_groups (contents : List VUnit)
    (window_size window_overlap max_chars max_tokens : Nat) : List (Nat × Nat) :=
  mergeGo contents window_size window_overlap max_chars max_tokens contents.length 0

/-- The units of the window `w` (the slice of the validated-unit list with
indices in `[w.1, w.2)`). -/
def windowSlice (c : List VUnit) (w : Nat × Nat) : List VUnit :=
  (c.drop w.1).take (w.2 - w.1)

/-- Python's `" ".join`: concatenation with a single space inserted between
consecutive elements. -/
def spaceJoin : List Str → Str
  | [] => []
  | [x] => x
  | x :: y :: xs => x ++ [' '] ++ spaceJoin (y :: xs)

/-- The text of the chunk built from window `w` (`splitter.py` line 626):
`" ".join(valid_contents[doc_index][0] for doc_index in window)`. -/
def chunkText (c : List VUnit) (w : Nat × Nat) : Str :=
  spaceJoin ((windowSlice c w).map VUnit.text)

/-- How many unit indices two windows share (the size of the intersection of
the index intervals `[w.1, w.2)` and `[v.1, v.2)`). -/
def sharedCount (w v : Nat × Nat) : Nat :=
  min w.2 v.2 - max w.1 v.1

/-! ## Documents, metadata and the `split` pipeline (from `splitter.py`) -/

/-- A headline annotation: its text and its character offset into the
document content. -/
structure Headline where
  text : Str
  start_idx : Nat
deriving DecidableEq

/-- The document metadata fields the splitter inspects: the optional
`headlines` list and the optional `page` number.  (All other keys are
opaque to the splitter and are carried verbatim, so they are not
modelled.) -/
structure Meta where
  headlines : Option (List Headline)
  page : Option Nat
deriving DecidableEq

/-- A Haystack `Document`: content, content type, metadata and id hash
keys. -/
structure Doc where
  content : Str
  content_type : String
  meta : Meta
  id_hash_keys : List String
deriving DecidableEq

/-- `fix_metadata` from `splitter.py` (lines 686-687): returns the source
metadata repeated once per produced chunk.  The headline-relocation and
page-numbering code at lines 689-750 sits after this `return` statement and
is unreachable dead code (it also refers to names that are not in scope
there), so it is not part of the embedding. -/
def fix_metadata (source_text : Str) (preprocessed_texts : List Str)
    (source_meta : Meta) : List Meta :=
  List.replicate preprocessed_texts.length source_meta

/-- The configuration surface of `DocumentSplitter.split` after the
`self` defaults are resolved (`splitter.py` lines 555-563).  `split_length`
and `split_overlap` are Python ints and may be negative, hence `Int`; the
caps are used only through `> 0` tests, hence `Nat`.  `add_page_number` is
resolved at line 562 but never used afterwards (the dead `fix_metadata`
body is where it would have mattered). -/
structure SplitParams where
  split_by : String
  split_length : Int
  split_overlap : Int
  max_chars : Nat
  max_tokens : Nat
  add_page_number : Bool
deriving DecidableEq

/-- `_validate_split_params` (`splitter.py` lines 197-247): returns the
message of the `ValueError` it raises, or `none` when the parameters pass.
The `SplitBy` literal (line 36) lists exactly `character`, `token`, `word`,
`sentence`, `paragraph`, `page` and `regex` — it does not contain
`separators`.  The warnings-only branches are not modelled. -/
def validate_split_params (p : SplitParams) : Option String :=
  if p.split_by ∉ ["character", "token", "word", "sentence", "paragraph", "page", "regex"] then
    some "split_by must be one of: character, token, word, sentence, paragraph, page, regex"
  else if p.split_length < 0 then
    some "split_length must be an integer >= 0"
  else if p.split_length ≠ 0 ∧ p.split_overlap < 0 then
    some "split_overlap must be an integer >= 0"
  else if p.split_length ≠ 0 ∧ p.split_overlap ≥ p.split_length then
    some "split_length must be higher than split_overlap"
  else
    none

/-- The per-document body of the loop in `DocumentSplitter.split`
(`splitter.py` lines 594-634): an empty document is skipped (zero chunks),
otherwise the content is segmented, validated, grouped into windows, the
chunk texts are space-joined and paired with the metadata from
`fix_metadata`.  The splitter function (resolved once by `get_splitter`)
and the token-count oracle are passed in. -/
def splitOne (p : SplitParams) (splitter : Str → List Str) (tc : Str → Nat)
    (document : Doc) : List Doc :=
  if document.content = [] then []
  else
    let split_content := splitter document.content
    let valid_contents := validate_unit_boundaries split_content p.max_chars p.max_tokens tc
    let windows := make_merge_groups valid_contents p.split_length.toNat
      p.split_overlap.toNat p.max_chars p.max_tokens
    let split_documents := windows.map (fun w => chunkText valid_contents w)
    let split_metadata := fix_metadata document.content split_documents document.meta
    (split_documents.zip split_metadata).map
      (fun tm => ⟨tm.1, "text", tm.2, document.id_hash_keys⟩)

/-- `DocumentSplitter.split` (`splitter.py` lines 479-636): validates the
parameters, rejects the whole batch if any document is not a text document,
then splits each document in turn.  A raised `ValueError` is an
`Except.error` carrying its message.  The tokenizer is modelled as always
configured (the oracle `tc`), so the `split_by == "token"` tokenizer check
at line 581 never fires and is not modelled. -/
def splitDocs (p : SplitParams) (splitter : Str → List Str) (tc : Str → Nat)
    (documents : List Doc) : Except String (List Doc) :=
  match validate_split_params p with
  | some e => Except.error e
  | none =>
    if documents.any (fun d => d.content_type != "text") then
      Except.error "Some documents do not contain text. Make sure to pass only text documents to this node."
    else
      Except.ok ((documents.map (splitOne p splitter tc)).flatten)

/-- Whether an `Except` is an error. -/
def isError : Except String (List Doc) → Bool
  | Except.error _ => true
  | Except.ok _ => false

/-- A token-count oracle that is never consulted (used when
`max_tokens = 0`). -/
def tc0 : Str → Nat := fun _ => 0

/-! ## Concrete inputs used by the evaluation theorems -/

/-- Metadata with no headlines field and no page field. -/
def meta0 : Meta := ⟨none, none⟩

/-- A document whose headline `"world"` sits at absolute offset 6, inside
the second chunk produced by word splitting with `split_length = 1`. -/
def c1_doc : Doc := ⟨"Hello world".toList, "text", ⟨some [⟨"world".toList, 6⟩], none⟩, []⟩

/-- Word splitting, one unit per chunk, default caps. -/
def c1_params : SplitParams := ⟨"word", 1, 0, 2000, 0, true⟩

/-- A two-word document; its word units are `"ab "` and `"cd"`. -/
def abcd_doc : Doc := ⟨"ab cd".toList, "text", meta0, []⟩

/-- Word splitting, two units per chunk, no overlap, default caps. -/
def c2_params : SplitParams := ⟨"word", 2, 0, 2000, 0, true⟩

/-- A four-word document whose word units are `"aaa "`, `"bbb "`, `"ccc "`
and `"ddd"` (each within a `max_chars = 5` cap). -/
def aaa_doc : Doc := ⟨"aaa bbb ccc ddd".toList, "text", meta0, []⟩

/-- Word splitting, three units per chunk, no overlap, `max_chars = 5`:
the char cap closes each window after a single unit while the stride
remains 3, so unit indices 1 and 2 fall into no window. -/
def gap_params : SplitParams := ⟨"word", 3, 0, 5, 0, true⟩

/-- Word splitting with the unit count unconstrained (`split_length = 0`)
and `max_chars = 5`. -/
def c3_params : SplitParams := ⟨"word", 0, 0, 5, 0, true⟩

/-- A two-page document: `"a"`, a form feed, `"b"`. -/
def c4_doc : Doc := ⟨['a', '\x0C', 'b'], "text", meta0, []⟩

/-- Word splitting, one unit per chunk, page numbering enabled. -/
def c4_params : SplitParams := ⟨"word", 1, 0, 2000, 0, true⟩

/-- Four validated units (as word units of `"a b c d"`), for exercising
`make_merge_groups` directly. -/
def c5_units : List VUnit :=
  [⟨"a ".toList, 0, false⟩, ⟨"b ".toList, 0, false⟩, ⟨"c ".toList, 0, false⟩,
    ⟨"d".toList, 0, false⟩]

/-- Four validated units of four, four, four and three characters. -/
def c5_gap_units : List VUnit :=
  [⟨"aaa ".toList, 0, false⟩, ⟨"bbb ".toList, 0, false⟩, ⟨"ccc ".toList, 0, false⟩,
    ⟨"ddd".toList, 0, false⟩]

/-- The configuration claimed valid by the docstring: splitting on an
explicit separator list. -/
def c7_params : SplitParams := ⟨"separators", 2, 0, 2000, 0, true⟩

/-- A plain one-character text document. -/
def x_doc : Doc := ⟨"x".toList, "text", meta0, []⟩

/-- A configuration with a negative `split_length`. -/
def c8_params : SplitParams := ⟨"word", -1, 0, 2000, 0, true⟩

/-- A text document with empty content. -/
def empty_doc : Doc := ⟨[], "text", meta0, []⟩

/-- A document whose content type is not `"text"`. -/
def table_doc : Doc := ⟨"t".toList, "table", meta0, []⟩

/-! ## Claim theorems -/

/-- C1: the claim fails because `fix_metadata` returns early with the source
metadata repeated per chunk — its headline-relocation code is dead.  On a
document whose headline `"world"` has absolute offset 6, word splitting
into the chunks `"Hello "` and `"world"` leaves the headline, with its
absolute offset 6, duplicated onto **both** chunks: it is not attributed to
exactly one chunk and its `start_idx` is not rewritten to the chunk-local
offset 0. -/
theorem C1_code_bug_eval :
    splitDocs c1_params word_splitter tc0 [c1_doc] =
      Except.ok
        [⟨"Hello ".toList, "text", ⟨some [⟨"world".toList, 6⟩], none⟩, []⟩,
          ⟨"world".toList, "text", ⟨some [⟨"world".toList, 6⟩], none⟩, []⟩] := rfl

/-- C4: the claim fails because `fix_metadata` returns early with the source
metadata unchanged — its page-numbering code is dead.  Splitting a document
containing a form feed, with page numbering enabled, yields chunks whose
`page` field is absent (`none`), not `1` and `2`. -/
theorem C4_code_bug_eval :
    c4_params.add_page_number = true ∧
      splitDocs c4_params word_splitter tc0 [c4_doc] =
        Except.ok [⟨['a', '\x0C'], "text", meta0, []⟩, ⟨['b'], "text", meta0, []⟩] := by
  exact ⟨rfl, rfl⟩

/-- C7: the claim fails because the `SplitBy` literal (`splitter.py` line
36) omits `"separators"`, so `_validate_split_params` rejects
`split_by="separators"` as unknown before any document is processed — even
though the docstring lists it and `get_splitter` supports it. -/
theorem C7_code_bug_eval :
    splitDocs c7_params word_splitter tc0 [x_doc] =
      Except.error "split_by must be one of: character, token, word, sentence, paragraph, page, regex" :=
  rfl

/-- C2 counterexample: with `split_overlap = 0`, concatenating the chunks'
texts does not reproduce the original content.  (a) Chunk assembly joins
the separator-retaining units with `" ".join`, so the two units `"ab "` and
`"cd"` of `"ab cd"` become the single chunk `"ab  cd"` — a space is added.
(b) With `max_chars = 5` and `split_length = 3`, the stride skips the units
the char cap kept out of a window, and `"bbb "`, `"ccc "` are lost
entirely. -/
theorem C2_counterexample :
    (splitDocs c2_params word_splitter tc0 [abcd_doc] =
        Except.ok [⟨"ab  cd".toList, "text", meta0, []⟩] ∧
      "ab  cd".toList ≠ "ab cd".toList) ∧
    (splitDocs gap_params word_splitter tc0 [aaa_doc] =
        Except.ok [⟨"aaa ".toList, "text", meta0, []⟩, ⟨"ddd".toList, "text", meta0, []⟩] ∧
      List.flatten ([⟨"aaa ".toList, "text", meta0, []⟩,
          ⟨"ddd".toList, "text", meta0, []⟩].map Doc.content) ≠ "aaa bbb ccc ddd".toList) :=
  ⟨⟨rfl, by decide⟩, ⟨rfl, by decide⟩⟩

/-- C3 counterexample: with `max_chars = 5` the two units `"ab "` and `"cd"`
of `"ab cd"` fit the cumulative char budget (3 + 2 = 5), but the chunk text
is their `" ".join`, `"ab  cd"`, of length 6 — the produced chunk exceeds
`max_chars`. -/
theorem C3_counterexample :
    c3_params.max_chars = 5 ∧
      splitDocs c3_params word_splitter tc0 [abcd_doc] =
        Except.ok [⟨"ab  cd".toList, "text", meta0, []⟩] ∧
      5 < ("ab  cd".toList).length :=
  ⟨rfl, rfl, by decide⟩

/-- C5 counterexample: with `split_length = 3` and `split_overlap = 2` over
four units, the windows are `[0,3), [1,4), [2,4), [3,4)` and the final
consecutive pair shares only 1 unit index, not 2; and with `split_length =
3`, `split_overlap = 0`, `max_chars = 5` over four units of lengths 4, 4,
4, 3, the windows are `[0,1), [3,4)`, so unit index 1 appears in no window
(coverage fails). -/
theorem C5_counterexample :
    (make_merge_groups c5_units 3 2 0 0 = [(0, 3), (1, 4), (2, 4), (3, 4)] ∧
      sharedCount (2, 4) (3, 4) = 1) ∧
    (make_merge_groups c5_gap_units 3 0 5 0 = [(0, 1), (3, 4)] ∧
      ∀ w ∈ make_merge_groups c5_gap_units 3 0 5 0, ¬(w.1 ≤ 1 ∧ 1 < w.2)) :=
  ⟨⟨rfl, rfl⟩, ⟨rfl, by decide⟩⟩

/-- Helper: a configuration with a negative `split_length`, or with a
positive `split_length` and an overlap that is negative or not smaller,
fails `_validate_split_params` with some error message. -/
theorem validate_split_params_fails (p : SplitParams)
    (h : p.split_length < 0 ∨
      (0 < p.split_length ∧ (p.split_overlap < 0 ∨ p.split_length ≤ p.split_overlap))) :
    ∃ msg, validate_split_params p = some msg := by
  unfold validate_split_params
  split_ifs with h1 h2 h3 h4
  all_goals try exact ⟨_, rfl⟩
  exfalso
  omega

/-- C8: a configuration with `split_length < 0`, or with `split_length > 0`
and `split_overlap < 0` or `split_overlap >= split_length`, makes `split`
raise a `ValueError` (an `Except.error`), whatever the documents: no chunks
are produced. -/
theorem C8_invalid_length_overlap_rejected (p : SplitParams)
    (splitter : Str → List Str) (tc : Str → Nat) (docs : List Doc)
    (h : p.split_length < 0 ∨
      (0 < p.split_length ∧ (p.split_overlap < 0 ∨ p.split_length ≤ p.split_overlap))) :
    isError (splitDocs p splitter tc docs) = true := by
  obtain ⟨msg, hv⟩ := validate_split_params_fails p h
  unfold splitDocs
  rw [hv]
  rfl

/-- C8 witness: `split_length = -1` is rejected. -/
theorem C8_invalid_length_overlap_rejected_witness :
    (c8_params.split_length < 0 ∨
      (0 < c8_params.split_length ∧
        (c8_params.split_overlap < 0 ∨ c8_params.split_length ≤ c8_params.split_overlap))) ∧
    isError (splitDocs c8_params word_splitter tc0 [x_doc]) = true :=
  ⟨Or.inl (by decide),
    C8_invalid_length_overlap_rejected c8_params word_splitter tc0 [x_doc] (Or.inl (by decide))⟩

/-- C9: a document with empty content contributes zero chunks and is simply
skipped — splitting the batch with it in front gives exactly the result of
splitting the rest of the batch (no error is raised, processing
continues). -/
theorem C9_empty_document_skipped (p : SplitParams) (splitter : Str → List Str)
    (tc : Str → Nat) (d : Doc) (rest : List Doc)
    (hd : d.content = []) (ht : d.content_type = "text") :
    splitDocs p splitter tc (d :: rest) = splitDocs p splitter tc rest := by
  unfold splitDocs
  cases validate_split_params p with
  | some e => rfl
  | none =>
    simp only [List.any_cons, ht, bne_self_eq_false, Bool.false_or, List.map_cons,
      List.flatten_cons]
    rw [show splitOne p splitter tc d = [] by simp [splitOne, hd]]
    rfl

/-- C9 witness: an empty document followed by a one-word document. -/
theorem C9_empty_document_skipped_witness :
    (empty_doc.content = [] ∧ empty_doc.content_type = "text") ∧
    splitDocs c1_params word_splitter tc0 [empty_doc, x_doc] =
      splitDocs c1_params word_splitter tc0 [x_doc] :=
  ⟨⟨rfl, rfl⟩, C9_empty_document_skipped c1_params word_splitter tc0 empty_doc [x_doc] rfl rfl⟩

/-- C10: if any document of the batch has a content type other than
`"text"`, `split` raises a `ValueError` before processing any document —
no chunks are produced, not even for preceding text documents. -/
theorem C10_non_text_rejected (p : SplitParams) (splitter : Str → List Str)
    (tc : Str → Nat) (docs : List Doc)
    (h : ∃ d ∈ docs, d.content_type ≠ "text") :
    isError (splitDocs p splitter tc docs) = true := by
  unfold splitDocs
  cases validate_split_params p with
  | some e => rfl
  | none =>
    have hany : docs.any (fun d => d.content_type != "text") = true := by
      obtain ⟨d, hd, hne⟩ := h
      exact List.any_eq_true.mpr ⟨d, hd, by simpa using hne⟩
    rw [hany]
    rfl

/-- C10 witness: a text document preceding a `"table"` document — the whole
batch is rejected. -/
theorem C10_non_text_rejected_witness :
    (∃ d ∈ [x_doc, table_doc], d.content_type ≠ "text") ∧
    isError (splitDocs c1_params word_splitter tc0 [x_doc, table_doc]) = true :=
  ⟨by decide, C10_non_text_rejected c1_params word_splitter tc0 [x_doc, table_doc] (by decide)⟩

/-- Helper: force-splitting nothing gives nothing. -/
theorem forceSlicesGo_nil (m fuel : Nat) : forceSlicesGo m fuel [] = [] := by
  cases fuel <;> simp [forceSlicesGo]

/-- Helper: the slices of a force-split unit concatenate back to the unit
exactly (no character lost or added), whatever the fuel. -/
theorem forceSlicesGo_flatten (m : Nat) :
    ∀ (fuel : Nat) (cs : Str), List.flatten (forceSlicesGo m fuel cs) = cs := by
  intro fuel
  induction fuel with
  | zero =>
    intro cs
    by_cases h : cs = [] <;> simp [forceSlicesGo, h]
  | succ fuel ih =>
    intro cs
    by_cases h : cs = []
    · simp [forceSlicesGo, h]
    · simp [forceSlicesGo, h, ih, List.take_append_drop]

/-- Helper: with enough fuel (at least one slice per `m` characters), every
slice produced by `forceSlicesGo` has at most `m` characters. -/
theorem forceSlicesGo_le (m : Nat) :
    ∀ (fuel : Nat) (cs : Str), cs.length ≤ fuel * m →
      ∀ s ∈ forceSlicesGo m fuel cs, s.length ≤ m := by
  intro fuel
  induction fuel with
  | zero =>
    intro cs hlen s hs
    have : cs = [] := List.eq_nil_of_length_eq_zero (by omega)
    simp [this, forceSlicesGo] at hs
  | succ fuel ih =>
    intro cs hlen s hs
    by_cases h : cs = []
    · simp [forceSlicesGo, h] at hs
    · rw [Nat.succ_mul] at hlen
      simp only [forceSlicesGo, h, if_neg] at hs
      rcases List.mem_cons.mp hs with rfl | hs
      · have := List.length_take m cs
        omega
      · exact ih (cs.drop m) (by have := List.length_drop m cs; omega) s hs

/-- Helper: every slice except the last has exactly `m` characters. -/
theorem forceSlicesGo_exact (m : Nat) :
    ∀ (fuel : Nat) (cs : Str) (i : Nat), i + 1 < (forceSlicesGo m fuel cs).length →
      ((forceSlicesGo m fuel cs).getD i []).length = m := by
  intro fuel
  induction fuel with
  | zero =>
    intro cs i h
    by_cases hc : cs = [] <;> simp [forceSlicesGo, hc] at h
  | succ fuel ih =>
    intro cs i h
    by_cases hc : cs = []
    · simp [forceSlicesGo, hc] at h
    · simp only [forceSlicesGo] at h ⊢
      rw [if_neg hc] at h ⊢
      cases i with
      | zero =>
        have hne : forceSlicesGo m fuel (cs.drop m) ≠ [] := by
          intro hnil
          rw [List.length_cons, hnil] at h
          simp at h
        have hdrop : cs.drop m ≠ [] := fun hnil => hne (by rw [hnil, forceSlicesGo_nil])
        have hmlt : m < cs.length := by
          by_contra hle
          exact hdrop (List.drop_eq_nil_iff.mpr (by omega))
        simp only [List.getD_cons_zero, List.length_take]
        omega
      | succ i =>
        rw [List.length_cons] at h
        simp only [List.getD_cons_succ]
        exact ih (cs.drop m) i (by omega)

/-- C6: boundary validation never subdivides a unit whose token count
exceeds `max_tokens` — the unit appears in the validated output unchanged,
merely flagged — in contrast with the `max_chars` cap, which force-splits
an oversized unit into slices of exactly `max_chars` characters (the last
possibly shorter), losslessly. -/
theorem C6_token_overflow_not_subdivided (mc mt : Nat) (tc : Str → Nat)
    (units : List Str) (u v : Str)
    (hu : u ∈ units) (hmt : 0 < mt) (htok : mt < tc u)
    (hchar : mc = 0 ∨ u.length ≤ mc) (hmc : 0 < mc) (hlen : mc < v.length) :
    (⟨u, tc u, true⟩ : VUnit) ∈ validate_unit_boundaries units mc mt tc ∧
    (validate_unit_boundaries [v] mc mt tc).map VUnit.text = forceSlices mc v ∧
    List.flatten (forceSlices mc v) = v ∧
    (∀ s ∈ forceSlices mc v, s.length ≤ mc) ∧
    (∀ i : Nat, i + 1 < (forceSlices mc v).length →
      ((forceSlices mc v).getD i []).length = mc) := by
  refine ⟨?_, ?_, ?_, ?_, ?_⟩
  · apply List.mem_flatMap.mpr
    refine ⟨u, hu, ?_⟩
    have hnot : ¬(0 < mc ∧ mc < u.length) := by omega
    rw [validateOne, if_neg hnot]
    have : decide (0 < mt ∧ mt < tc u) = true := decide_eq_true ⟨hmt, htok⟩
    rw [this]
    exact List.mem_singleton.mpr rfl
  · show (validateOne mc mt tc v ++ []).map VUnit.text = forceSlices mc v
    rw [List.append_nil, validateOne, if_pos ⟨hmc, hlen⟩, List.map_map]
    exact List.map_id'' (fun _ => rfl) _
  · exact forceSlicesGo_flatten mc v.length v
  · exact forceSlicesGo_le mc v.length v (Nat.le_mul_of_pos_right v.length hmc)
  · exact fun i h => forceSlicesGo_exact mc v.length v i h

/-- C6 witness: `max_chars = 5`, `max_tokens = 1`, token count = character
count; the three-token unit `"abc"` passes through unchanged and flagged,
while the ten-character unit `"helloworld"` is force-split into `"hello"`
and `"world"`. -/
theorem C6_token_overflow_not_subdivided_witness :
    ("abc".toList ∈ ["abc".toList] ∧ 0 < 1 ∧ 1 < List.length "abc".toList ∧
      ((5 : Nat) = 0 ∨ List.length "abc".toList ≤ 5) ∧ 0 < 5 ∧
      5 < List.length "helloworld".toList) ∧
    ((⟨"abc".toList, List.length "abc".toList, true⟩ : VUnit) ∈
      validate_unit_boundaries ["abc".toList] 5 1 List.length ∧
    (validate_unit_boundaries ["helloworld".toList] 5 1 List.length).map VUnit.text =
      forceSlices 5 "helloworld".toList ∧
    List.flatten (forceSlices 5 "helloworld".toList) = "helloworld".toList ∧
    (∀ s ∈ forceSlices 5 "helloworld".toList, s.length ≤ 5) ∧
    (∀ i : Nat, i + 1 < (forceSlices 5 "helloworld".toList).length →
      ((forceSlices 5 "helloworld".toList).getD i []).length = 5)) :=
  ⟨⟨by decide, by decide, by decide, Or.inr (by decide), by decide, by decide⟩,
    C6_token_overflow_not_subdivided 5 1 List.length ["abc".toList]
      "abc".toList "helloworld".toList (by decide) (by decide) (by decide)
      (Or.inr (by decide)) (by decide) (by decide)⟩

/-- Helper: a successful separator match splits the text as separator
followed by remainder. -/
theorem stripMatch_spec : ∀ (s cs r : Str), stripMatch s cs = some r → s ++ r = cs := by
  intro s
  induction s with
  | nil =>
    intro cs r h
    simp only [stripMatch, Option.some_inj] at h
    simpa using h.symm
  | cons a as ih =>
    intro cs r h
    cases cs with
    | nil => simp [stripMatch] at h
    | cons b bs =>
      simp only [stripMatch] at h
      split_ifs at h with hab
      subst hab
      simpa using ih bs r h

/-- Helper: whichever separator `findSep` picks, it splits the text as
separator followed by remainder, and the separator is non-empty. -/
theorem findSep_spec :
    ∀ (seps : List Str) (cs s r : Str), findSep seps cs = some (s, r) →
      s ++ r = cs ∧ s ≠ [] := by
  intro seps
  induction seps with
  | nil => intro cs s r h; simp [findSep] at h
  | cons t rest ih =>
    intro cs s r h
    simp only [findSep] at h
    split_ifs at h with ht
    · exact ih cs s r h
    · cases hsm : stripMatch t cs with
      | some r' =>
        rw [hsm] at h
        simp only [Option.some_inj, Prod.mk.injEq] at h
        obtain ⟨h1, h2⟩ := h
        subst h1
        subst h2
        exact ⟨stripMatch_spec t cs r' hsm, ht⟩
      | none =>
        rw [hsm] at h
        exact ih cs s r h

/-- Helper: the units produced by the separator splitter concatenate back to
the accumulator followed by the remaining text — no character is lost or
added, whatever the fuel. -/
theorem sepSplitGo_flatten (seps : List Str) :
    ∀ (fuel : Nat) (acc cs : Str),
      List.flatten (sepSplitGo seps fuel acc cs) = acc ++ cs := by
  intro fuel
  induction fuel with
  | zero =>
    intro acc cs
    by_cases h : acc ++ cs = [] <;> simp [sepSplitGo, h]
  | succ fuel ih =>
    intro acc cs
    cases hfs : findSep seps cs with
    | some sr =>
      obtain ⟨s, r⟩ := sr
      obtain ⟨hsr, -⟩ := findSep_spec seps cs s r hfs
      simp only [sepSplitGo, hfs, List.flatten_cons, ih, List.nil_append]
      rw [List.append_assoc, hsr]
    | none =>
      cases cs with
      | nil =>
        simp only [sepSplitGo, hfs]
        by_cases h : acc = [] <;> simp [h]
      | cons ch rest =>
        simp only [sepSplitGo, hfs, ih]
        simp

/-- Helper: `split_by_separators` is lossless — concatenating the units
reproduces the text exactly. -/
theorem split_by_separators_flatten (text : Str) (separators : List Str) :
    List.flatten (split_by_separators text separators) = text := by
  simpa using sepSplitGo_flatten separators text.length [] text

/-- Helper: with `max_chars = 0` the boundary validator passes every unit
through unchanged (in particular, its texts are the units). -/
theorem validate_texts_mc0 (mt : Nat) (tc : Str → Nat) :
    ∀ us : List Str, (validate_unit_boundaries us 0 mt tc).map VUnit.text = us := by
  intro us
  induction us with
  | nil => rfl
  | cons u us ih =>
    simp only [validate_unit_boundaries, List.flatMap_cons, List.map_append] at ih ⊢
    rw [ih]
    have : validateOne 0 mt tc u = [⟨u, tc u, decide (0 < mt ∧ mt < tc u)⟩] := by
      simp [validateOne]
    rw [this]
    rfl

/-- Helper: with both cumulative caps disabled, `canAdd` only checks the
unit-count cap. -/
theorem canAdd_zero (c : List VUnit) (ws s e : Nat) :
    canAdd c ws 0 0 s e = decide (ws = 0 ∨ e - s < ws) := by
  simp [canAdd]

/-- Helper: closed form of window growth when the char and token caps are
disabled: with enough fuel, the window runs to the end of the unit list when
`window_size = 0`, and to `min (s + window_size) length` otherwise. -/
theorem growExtend_zero (c : List VUnit) (ws s : Nat) :
    ∀ (fuel e : Nat), c.length ≤ e + fuel →
      growExtend c ws 0 0 s fuel e =
        if ws = 0 then max e c.length else max e (min (s + ws) c.length) := by
  intro fuel
  induction fuel with
  | zero =>
    intro e h
    simp only [growExtend]
    split_ifs <;> omega
  | succ fuel ih =>
    intro e h
    simp only [growExtend]
    by_cases hcond : e < c.length ∧ (ws = 0 ∨ e - s < ws)
    · rw [if_pos ⟨hcond.1, by rw [canAdd_zero]; exact decide_eq_true hcond.2⟩]
      rw [ih (e + 1) (by omega)]
      rcases hcond with ⟨h1, h2⟩
      split_ifs with hws <;> omega
    · rw [if_neg (by
        rw [canAdd_zero]
        intro hand
        exact hcond ⟨hand.1, of_decide_eq_true hand.2⟩)]
      split_ifs with hws <;> omega

/-- Helper: closed form of `growWindow` when the char and token caps are
disabled. -/
theorem growWindow_zero (c : List VUnit) (ws s : Nat) (hs : s < c.length) :
    growWindow c ws 0 0 s = if ws = 0 then c.length else min (s + ws) c.length := by
  unfold growWindow
  rw [growExtend_zero c ws s c.length (s + 1) (by omega)]
  split_ifs with hws <;> omega

/-- Helper: with overlap 0 and the char/token caps disabled, the windows
partition the validated-unit list: concatenating the window slices yields
exactly the units from the current start onward. -/
theorem mergeGo_partition (c : List VUnit) (ws : Nat) :
    ∀ (fuel s : Nat), c.length ≤ fuel + s →
      List.flatten ((mergeGo c ws 0 0 0 fuel s).map (fun w => windowSlice c w)) =
        c.drop s := by
  intro fuel
  induction fuel with
  | zero =>
    intro s h
    simp only [mergeGo, List.map_nil, List.flatten_nil]
    exact (List.drop_eq_nil_iff.mpr (by omega)).symm
  | succ fuel ih =>
    intro s h
    by_cases hs : s < c.length
    · simp only [mergeGo]
      rw [if_pos hs, growWindow_zero c ws s hs]
      rcases Nat.eq_zero_or_pos ws with hws0 | hwspos
      · subst hws0
        rw [if_pos (rfl : (0 : Nat) = 0), if_neg (lt_irrefl 0)]
        simp only [List.map_cons, List.flatten_cons]
        rw [ih c.length (by omega), List.drop_length, List.append_nil]
        simp only [windowSlice]
        exact List.take_of_length_le (by simp [List.length_drop])
      · rw [if_neg (by omega : ¬ws = 0), if_pos hwspos]
        have hmax : max (ws - 0) 1 = ws := by omega
        rw [hmax]
        simp only [List.map_cons, List.flatten_cons]
        rw [ih (s + ws) (by omega)]
        simp only [windowSlice]
        by_cases hle : s + ws ≤ c.length
        · rw [show min (s + ws) c.length = s + ws by omega]
          rw [show s + ws - s = ws by omega]
          rw [show c.drop (s + ws) = (c.drop s).drop ws by rw [List.drop_drop]]
          exact List.take_append_drop ws (c.drop s)
        · rw [show min (s + ws) c.length = c.length by omega]
          rw [show c.drop (s + ws) = [] from List.drop_eq_nil_iff.mpr (by omega),
            List.append_nil]
          exact List.take_of_length_le (by simp [List.length_drop])
    · simp only [mergeGo]
      rw [if_neg hs]
      simp only [List.map_nil, List.flatten_nil]
      exact (List.drop_eq_nil_iff.mpr (by omega)).symm

/-- Helper: flattening chunk-wise flattenings equals flattening once and
mapping. -/
theorem flatten_map_comm {α β : Type} (g : α → List β) :
    ∀ L : List (List α),
      List.flatten (L.map (fun l => List.flatten (l.map g))) =
        List.flatten ((List.flatten L).map g) := by
  intro L
  induction L with
  | nil => rfl
  | cons l L ih => simp [List.map_append, List.flatten_append, ih]

/-- C2 (amended): chunk texts are the `" ".join` of their windows' unit
texts, and — when `split_overlap = 0` and the char/token caps are disabled —
concatenating, chunk by chunk in order, the texts of each chunk's underlying
units reproduces the original content exactly, for any separator-based
segmentation strategy and any `split_length`.  (As stated the claim fails:
the join inserts one space per unit boundary inside a chunk, and an active
`max_chars` cap can make the stride skip units entirely.) -/
theorem C2_amended (text : Str) (separators : List Str) (ws : Nat) (tc : Str → Nat) :
    (∀ w ∈ make_merge_groups
        (validate_unit_boundaries (split_by_separators text separators) 0 0 tc) ws 0 0 0,
      chunkText (validate_unit_boundaries (split_by_separators text separators) 0 0 tc) w =
        spaceJoin
          ((windowSlice (validate_unit_boundaries (split_by_separators text separators) 0 0 tc)
            w).map VUnit.text)) ∧
    List.flatten
      ((make_merge_groups
          (validate_unit_boundaries (split_by_separators text separators) 0 0 tc) ws 0 0 0).map
        (fun w =>
          List.flatten
            ((windowSlice (validate_unit_boundaries (split_by_separators text separators) 0 0 tc)
              w).map VUnit.text))) = text := by
  constructor
  · intro w _
    rfl
  · set V := validate_unit_boundaries (split_by_separators text separators) 0 0 tc with hV
    have h2 : List.flatten ((make_merge_groups V ws 0 0 0).map (fun w => windowSlice V w)) =
        V := by
      unfold make_merge_groups
      rw [mergeGo_partition V ws V.length 0 (by omega)]
      exact List.drop_zero V
    calc
      List.flatten ((make_merge_groups V ws 0 0 0).map
          (fun w => List.flatten ((windowSlice V w).map VUnit.text)))
        = List.flatten (((make_merge_groups V ws 0 0 0).map (fun w => windowSlice V w)).map
            (fun l => List.flatten (l.map VUnit.text))) := by rw [List.map_map]; rfl
      _ = List.flatten ((List.flatten ((make_merge_groups V ws 0 0 0).map
            (fun w => windowSlice V w))).map VUnit.text) := flatten_map_comm VUnit.text _
      _ = List.flatten (V.map VUnit.text) := by rw [h2]
      _ = List.flatten (split_by_separators text separators) := by
            rw [hV, validate_texts_mc0 0 tc (split_by_separators text separators)]
      _ = text := split_by_separators_flatten text separators

/-- C2 witness: the amended losslessness at a concrete input (`"ab cd"`,
space separator, `split_length = 2`). -/
theorem C2_amended_witness :
    (∀ w ∈ make_merge_groups
        (validate_unit_boundaries (split_by_separators "ab cd".toList [[' ']]) 0 0 tc0) 2 0 0 0,
      chunkText (validate_unit_boundaries (split_by_separators "ab cd".toList [[' ']]) 0 0 tc0)
          w =
        spaceJoin
          ((windowSlice
              (validate_unit_boundaries (split_by_separators "ab cd".toList [[' ']]) 0 0 tc0)
            w).map VUnit.text)) ∧
    List.flatten
      ((make_merge_groups
          (validate_unit_boundaries (split_by_separators "ab cd".toList [[' ']]) 0 0 tc0)
          2 0 0 0).map
        (fun w =>
          List.flatten
            ((windowSlice
                (validate_unit_boundaries (split_by_separators "ab cd".toList [[' ']]) 0 0 tc0)
              w).map VUnit.text))) = "ab cd".toList :=
  C2_amended "ab cd".toList [[' ']] 2 tc0

/-- Helper: when `max_chars > 0`, every validated unit's text is within
`max_chars` (oversized units were force-split). -/
theorem validate_units_le (units : List Str) (mc mt : Nat) (tc : Str → Nat) (hmc : 0 < mc) :
    ∀ v ∈ validate_unit_boundaries units mc mt tc, v.text.length ≤ mc := by
  intro v hv
  obtain ⟨u, hu, hvu⟩ := List.mem_flatMap.mp hv
  unfold validateOne at hvu
  split_ifs at hvu with hcond
  · obtain ⟨s, hs, rfl⟩ := List.mem_map.mp hvu
    exact forceSlicesGo_le mc u.length u (Nat.le_mul_of_pos_right u.length hmc) s hs
  · rw [List.mem_singleton] at hvu
    subst hvu
    simp only
    omega

/-- Helper: window growth never moves the end backwards. -/
theorem growExtend_ge (c : List VUnit) (ws mc mt s : Nat) :
    ∀ (fuel e : Nat), e ≤ growExtend c ws mc mt s fuel e := by
  intro fuel
  induction fuel with
  | zero => intro e; simp [growExtend]
  | succ fuel ih =>
    intro e
    simp only [growExtend]
    split_ifs
    · exact Nat.le_trans (Nat.le_succ e) (ih (e + 1))
    · exact Nat.le_refl e

/-- Helper: with `max_chars > 0`, window growth preserves the cumulative
character budget — a unit is only added while the sum stays within the
cap. -/
theorem growExtend_sumLen (c : List VUnit) (ws mc mt s : Nat) (hmc : 0 < mc) :
    ∀ (fuel e : Nat), sumLen c s e ≤ mc →
      sumLen c s (growExtend c ws mc mt s fuel e) ≤ mc := by
  intro fuel
  induction fuel with
  | zero => intro e he; simpa [growExtend] using he
  | succ fuel ih =>
    intro e he
    simp only [growExtend]
    split_ifs with hcond
    · refine ih (e + 1) ?_
      have := of_decide_eq_true hcond.2
      rcases this.2.1 with h0 | hle
      · omega
      · exact hle
    · exact he

/-- Helper: every recorded window starts inside the unit list and ends where
`growWindow` puts it. -/
theorem mergeGo_shape (c : List VUnit) (ws wo mc mt : Nat) :
    ∀ (fuel s : Nat) (w : Nat × Nat), w ∈ mergeGo c ws wo mc mt fuel s →
      w.1 < c.length ∧ w.2 = growWindow c ws mc mt w.1 := by
  intro fuel
  induction fuel with
  | zero => intro s w hw; simp [mergeGo] at hw
  | succ fuel ih =>
    intro s w hw
    simp only [mergeGo] at hw
    by_cases hs : s < c.length
    · rw [if_pos hs] at hw
      rcases List.mem_cons.mp hw with rfl | hw
      · exact ⟨hs, rfl⟩
      · exact ih _ w hw
    · rw [if_neg hs] at hw
      simp at hw

/-- Helper: a one-unit span is within the cap whenever every unit is. -/
theorem sumLen_single_le (c : List VUnit) (s mc : Nat)
    (hall : ∀ v ∈ c, v.text.length ≤ mc) : sumLen c s (s + 1) ≤ mc := by
  unfold sumLen
  rcases hd : c.drop s with _ | ⟨d, t⟩
  · simp
  · have hdm : d ∈ c := List.drop_subset s c (by rw [hd]; exact List.mem_cons_self d t)
    rw [show s + 1 - s = 1 from by omega]
    simpa using hall d hdm

/-- Helper: the length of a `" ".join` is the lengths of the parts plus one
space per boundary. -/
theorem spaceJoin_length :
    ∀ xs : List Str, xs ≠ [] →
      (spaceJoin xs).length + 1 = (xs.map List.length).sum + xs.length := by
  intro xs
  induction xs with
  | nil => intro h; exact absurd rfl h
  | cons x xs ih =>
    intro _
    cases xs with
    | nil => simp [spaceJoin]
    | cons y ys =>
      have h2 := ih (List.cons_ne_nil y ys)
      simp only [spaceJoin, List.length_append, List.map_cons, List.sum_cons,
        List.length_cons, List.length_nil] at h2 ⊢
      omega

/-- C3 (amended): with `max_chars = M > 0`, every window's cumulative unit
text length is within `M`, and every chunk's text exceeds `M` only by the
join spaces: its length plus one is at most `M` plus the number of unit
indices in its window (one inserted space per unit boundary).  (As stated
the claim fails: the `" ".join` of a full window can exceed `M`.) -/
theorem C3_amended (units : List Str) (tc : Str → Nat) (ws wo mt M : Nat) (hM : 0 < M) :
    ∀ w ∈ make_merge_groups (validate_unit_boundaries units M mt tc) ws wo M mt,
      sumLen (validate_unit_boundaries units M mt tc) w.1 w.2 ≤ M ∧
      (chunkText (validate_unit_boundaries units M mt tc) w).length + 1 ≤
        M + (w.2 - w.1) := by
  intro w hw
  set c := validate_unit_boundaries units M mt tc with hc
  have hall : ∀ v ∈ c, v.text.length ≤ M := validate_units_le units M mt tc hM
  unfold make_merge_groups at hw
  obtain ⟨hs, he⟩ := mergeGo_shape c ws wo M mt c.length 0 w hw
  have hsum : sumLen c w.1 w.2 ≤ M := by
    rw [he]
    unfold growWindow
    exact growExtend_sumLen c ws M mt w.1 hM c.length (w.1 + 1)
      (sumLen_single_le c w.1 M hall)
  refine ⟨hsum, ?_⟩
  have hlt : w.1 < w.2 := by
    rw [he]
    unfold growWindow
    have := growExtend_ge c ws M mt w.1 c.length (w.1 + 1)
    omega
  have hslice_len : (windowSlice c w).length = min (w.2 - w.1) (c.length - w.1) := by
    simp [windowSlice, List.length_take, List.length_drop]
  have hne : (windowSlice c w).map VUnit.text ≠ [] := by
    intro hnil
    have h0 := congrArg List.length hnil
    rw [List.length_map, hslice_len] at h0
    simp at h0
    omega
  have hj := spaceJoin_length ((windowSlice c w).map VUnit.text) hne
  have hsum_eq : (((windowSlice c w).map VUnit.text).map List.length).sum =
      sumLen c w.1 w.2 := by
    rw [List.map_map]
    rfl
  have hcnt : ((windowSlice c w).map VUnit.text).length ≤ w.2 - w.1 := by
    rw [List.length_map, hslice_len]
    omega
  unfold chunkText
  omega

/-- C3 witness: the amended cap bound at the concrete counterexample input
(units `"ab "` and `"cd"`, `max_chars = 5`): the single window sums to 5 and
its chunk text has length 6 = 5 + (2 - 1). -/
theorem C3_amended_witness :
    0 < 5 ∧
    ∀ w ∈ make_merge_groups
        (validate_unit_boundaries ["ab ".toList, "cd".toList] 5 0 tc0) 0 0 5 0,
      sumLen (validate_unit_boundaries ["ab ".toList, "cd".toList] 5 0 tc0) w.1 w.2 ≤ 5 ∧
      (chunkText (validate_unit_boundaries ["ab ".toList, "cd".toList] 5 0 tc0) w).length + 1 ≤
        5 + (w.2 - w.1) :=
  ⟨by decide, C3_amended ["ab ".toList, "cd".toList] tc0 0 0 0 5 (by decide)⟩

/-- Helper: a non-empty window list starts with the window opened at the
current start. -/
theorem mergeGo_head (c : List VUnit) (ws wo mc mt : Nat) :
    ∀ (fuel s : Nat) (w : Nat × Nat),
      (mergeGo c ws wo mc mt fuel s).head? = some w →
      w = (s, growWindow c ws mc mt s) ∧ s < c.length := by
  intro fuel s w h
  cases fuel with
  | zero => simp [mergeGo] at h
  | succ fuel =>
    simp only [mergeGo] at h
    by_cases hs : s < c.length
    · rw [if_pos hs] at h
      simp only [List.head?_cons, Option.some_inj] at h
      exact ⟨h.symm, hs⟩
    · rw [if_neg hs] at h
      simp at h

/-- Helper: with the char and token caps disabled and `0 < L`, `K < L`,
every unit index from the current start on is covered by some window. -/
theorem mergeGo_cover (c : List VUnit) (L K : Nat) (hL : 0 < L) (hK : K < L) :
    ∀ (fuel s j : Nat), c.length ≤ fuel + s → s ≤ j → j < c.length →
      ∃ w ∈ mergeGo c L K 0 0 fuel s, w.1 ≤ j ∧ j < w.2 := by
  intro fuel
  induction fuel with
  | zero => intro s j h hsj hj; omega
  | succ fuel ih =>
    intro s j h hsj hj
    have hs : s < c.length := by omega
    simp only [mergeGo]
    rw [if_pos hs, growWindow_zero c L s hs, if_neg (by omega : ¬L = 0), if_pos hL]
    by_cases hcase : j < min (s + L) c.length
    · exact ⟨(s, min (s + L) c.length), List.mem_cons_self _ _, hsj, hcase⟩
    · have hs' : s + max (L - K) 1 ≤ j := by omega
      obtain ⟨w, hw, hw1, hw2⟩ := ih (s + max (L - K) 1) j (by omega) hs' hj
      exact ⟨w, List.mem_cons_of_mem _ hw, hw1, hw2⟩

/-- Helper: with the char and token caps disabled, each next window starts a
stride of `max (L - K) 1` after its predecessor, and a predecessor holding
exactly `L` units shares exactly `K` indices with its successor. -/
theorem mergeGo_chain (c : List VUnit) (L K : Nat) (hL : 0 < L) (hK : K < L) :
    ∀ (fuel s : Nat),
      List.Chain' (fun w v => v.1 = w.1 + max (L - K) 1 ∧
        (w.2 = w.1 + L → sharedCount w v = K)) (mergeGo c L K 0 0 fuel s) := by
  intro fuel
  induction fuel with
  | zero => intro s; simp [mergeGo]
  | succ fuel ih =>
    intro s
    by_cases hs : s < c.length
    · simp only [mergeGo]
      rw [if_pos hs, if_pos hL]
      rw [List.chain'_cons']
      refine ⟨?_, ih _⟩
      intro y hy
      obtain ⟨rfl, hs'⟩ := mergeGo_head c L K 0 0 fuel (s + max (L - K) 1) y hy
      constructor
      · rfl
      · intro hfull
        have hfull' : growWindow c L 0 0 s = s + L := hfull
        rw [growWindow_zero c L s hs, if_neg (by omega : ¬L = 0)] at hfull'
        show min (growWindow c L 0 0 s) (growWindow c L 0 0 (s + max (L - K) 1)) -
            max s (s + max (L - K) 1) = K
        rw [growWindow_zero c L s hs, if_neg (by omega : ¬L = 0),
          growWindow_zero c L (s + max (L - K) 1) hs', if_neg (by omega : ¬L = 0)]
        omega
    · simp only [mergeGo]
      rw [if_neg hs]
      exact List.chain'_nil

/-- C5 (amended): for `split_length = L > 0` and `split_overlap = K < L`,
each next window starts at `s + max(L - K, 1)`, and — when the char and
token caps are disabled — every validated-unit index appears in at least
one window, and a pair of consecutive windows shares exactly `K` unit
indices whenever the earlier window contains exactly `L` units (the final,
end-truncated windows may share fewer; with an active `max_chars` the fixed
stride can also skip indices entirely). -/
theorem C5_amended (c : List VUnit) (L K : Nat) (hL : 0 < L) (hK : K < L) :
    List.Chain' (fun w v => v.1 = w.1 + max (L - K) 1 ∧
      (w.2 = w.1 + L → sharedCount w v = K)) (make_merge_groups c L K 0 0) ∧
    ∀ j < c.length, ∃ w ∈ make_merge_groups c L K 0 0, w.1 ≤ j ∧ j < w.2 := by
  constructor
  · unfold make_merge_groups
    exact mergeGo_chain c L K hL hK c.length 0
  · intro j hj
    unfold make_merge_groups
    exact mergeGo_cover c L K hL hK c.length 0 j (by omega) (by omega) hj

/-- C5 witness: the amended stride/overlap/coverage property on four
concrete units with `L = 2`, `K = 1`. -/
theorem C5_amended_witness :
    ((0 : Nat) < 2 ∧ (1 : Nat) < 2) ∧
    (List.Chain' (fun w v => v.1 = w.1 + max (2 - 1) 1 ∧
        (w.2 = w.1 + 2 → sharedCount w v = 1)) (make_merge_groups c5_units 2 1 0 0) ∧
      ∀ j < c5_units.length, ∃ w ∈ make_merge_groups c5_units 2 1 0 0,
        w.1 ≤ j ∧ j < w.2) :=
  ⟨⟨by decide, by decide⟩, C5_amended c5_units 2 1 (by decide) (by decide)⟩
